import Mathlib

/-!
Verification development for the mediagoblin_rdfa plugin
(src/mediagoblin_rdfa/__init__.py).

The plugin consumes a parsed RDF graph API from the external RDFMetadata
library.  We embed that interface shallowly:

* a predicate object is a tagged union: blank node, literal node (with a
  string value), or resource node (with a URI);
* a resource is a subject URI together with its ordered predicate list;
* an RDF graph block is the ordered list of resources yielded by the
  library's `itervalues`, and a document is the ordered list of its
  embedded RDF blocks;
* the vocabulary lookup `vocab.get_term(ns_uri, local_name).label`
  (raising `LookupError` on a miss) is embedded as a function
  `String → String → Option String` giving the label when the term exists;
* within one graph the library shares resource-node objects with the
  graph's node table, so projecting a source node amounts to looking its
  URI up among the block's resources (empty predicate list when absent).

Python's in-place mutation of the selected license property (the backfill
step aliases an element of `self.properties`) is embedded by rebuilding
the property list with the mutated element in place.
-/

namespace MgRdfa

/-- A namespace-qualified predicate URI, as exposed by the library
(`pred.uri.ns_uri`, `pred.uri.local_name`, `str(pred.uri)`). -/
structure TermUri where
  ns_uri : String
  local_name : String
deriving DecidableEq

/-- `str(pred.uri)`: the full URI string. -/
def TermUri.str (u : TermUri) : String := u.ns_uri ++ u.local_name

/-- A predicate object: blank node, literal node or resource node. -/
inductive Node where
  | blank : Node
  | literal (value : String) : Node
  | resource (uri : String) : Node
deriving DecidableEq

/-- `s.uri` as read by the source walk; only resource nodes carry a URI
(the walk never receives a blank node, and a non-resource node yields the
empty URI, which the walk's guard discards). -/
def Node.uri : Node → String
  | .resource u => u
  | _ => ""

/-- Whether the object is a blank node (`isinstance(pred.object, model.BlankNode)`). -/
def Node.isBlank : Node → Bool
  | .blank => true
  | _ => false

/-- A predicate edge: predicate URI and object node. -/
structure Predicate where
  uri : TermUri
  object : Node
deriving DecidableEq

/-- An RDF resource: subject URI and ordered predicate list. -/
structure Resource where
  uri : String
  predicates : List Predicate
deriving DecidableEq

/-- The vocabulary lookup interface: `(ns_uri, local_name) ↦ label`,
`none` embedding a `LookupError`. -/
def Vocab : Type := String → String → Option String

/-! Namespace URI constants of the vocabularies referenced by the plugin. -/

def dcNs : String := "http://purl.org/dc/elements/1.1/"

def dctermsNs : String := "http://purl.org/dc/terms/"

def ccNs : String := "http://creativecommons.org/ns#"

def xhtmlNs : String := "http://www.w3.org/1999/xhtml/vocab#"

def rdfNs : String := "http://www.w3.org/1999/02/22-rdf-syntax-ns#"

def dc_title : String := dcNs ++ "title"

def dcterms_title : String := dctermsNs ++ "title"

def cc_attributionURL : String := ccNs ++ "attributionURL"

def cc_attributionName : String := ccNs ++ "attributionName"

def dcterms_license : String := dctermsNs ++ "license"

def cc_license : String := ccNs ++ "license"

def xhtml_license : String := xhtmlNs ++ "license"

def rdf_type : String := rdfNs ++ "type"

def dc_type : String := dcNs ++ "type"

def dcterms_type : String := dctermsNs ++ "type"

def dc_format : String := dcNs ++ "format"

def dcterms_format : String := dctermsNs ++ "format"

def dc_source : String := dcNs ++ "source"

def dcterms_source : String := dctermsNs ++ "source"

/-- The static table of known Creative Commons license URIs. -/
def license_labels : List (String × String) :=
  [("http://creativecommons.org/licenses/by/3.0/", "CC BY 3.0"),
   ("http://creativecommons.org/licenses/by-nc/3.0/", "CC BY-NC 3.0"),
   ("http://creativecommons.org/licenses/by-nc-nd/3.0/", "CC BY-NC-ND 3.0"),
   ("http://creativecommons.org/licenses/by-nc-sa/3.0/", "CC BY-NC-SA 3.0"),
   ("http://creativecommons.org/licenses/by-nd/3.0/", "CC BY-ND 3.0"),
   ("http://creativecommons.org/licenses/by-sa/3.0/", "CC BY-SA 3.0")]

/-- `license_labels.get(uri, None)`. -/
def licenseLabelsGet (u : String) : Option String :=
  (license_labels.find? (fun e => e.1 == u)).map (fun e => e.2)

/-- `ResourceProperties.header_properties`. -/
def header_properties : List String :=
  [dc_title, dcterms_title,
   cc_attributionURL, cc_attributionName,
   dcterms_license, cc_license, xhtml_license]

/-- `ResourceProperties.tech_properties`. -/
def tech_properties : List String :=
  [rdf_type, dc_type, dcterms_type, dc_format, dcterms_format]

/-- `ResourceProperties.source_properties`. -/
def source_properties : List String :=
  [dc_source, dcterms_source]

/-- One projected predicate (`ResourceProperty`). -/
structure ResourceProperty where
  uri : String
  label : Option String := none
  content : Option String := none
  resource : Option String := none
  rel : Option String := none
deriving DecidableEq

/-- The label resolved for a predicate URI: the vocabulary term's label,
falling back to the raw URI string on a lookup miss (the `try/except
LookupError` around `vocab.get_term`). -/
def labelFor (v : Vocab) (u : TermUri) : String :=
  match v u.ns_uri u.local_name with
  | some l => l
  | none => u.str

/-- `str(pred.object.value)` when the object is a literal node. -/
def objContent : Node → Option String
  | .literal val => some val
  | _ => none

/-- `str(pred.object.uri)` when the object is a resource node. -/
def objResource : Node → Option String
  | .resource u => some u
  | _ => none

/-- The predicate loop of `ResourceProperties.__init__`: skip blank-node
objects, project each remaining edge into a `ResourceProperty`, and record
the raw object node of every source predicate. -/
def buildProps (v : Vocab) : List Predicate → List ResourceProperty × List Node
  | [] => ([], [])
  | pred :: rest =>
    let built := buildProps v rest
    match pred.object with
    | .blank => built
    | _ =>
      let uri := pred.uri.str
      let p : ResourceProperty :=
        { uri := uri, label := some (labelFor v pred.uri),
          content := objContent pred.object,
          resource := objResource pred.object, rel := none }
      (p :: built.1,
       if source_properties.contains uri then pred.object :: built.2 else built.2)

/-- `ResourceProperties.find_property`: first property with the given URI. -/
def findProperty (props : List ResourceProperty) (uri : String) : Option ResourceProperty :=
  props.find? (fun p => uri == p.uri)

/-- `self.title`: first match of `dc:title`, else `dcterms:title`. -/
def titleOf (props : List ResourceProperty) : Option ResourceProperty :=
  match findProperty props dc_title with
  | some p => some p
  | none => findProperty props dcterms_title

/-- `self.attribution`: synthesized only when both `cc:attributionURL` and
`cc:attributionName` are found. -/
def attributionOf (props : List ResourceProperty) : Option ResourceProperty :=
  match findProperty props cc_attributionURL, findProperty props cc_attributionName with
  | some url, some name =>
    some { uri := cc_attributionName, label := some "Attribution",
           content := name.content, resource := url.resource,
           rel := some cc_attributionURL }
  | _, _ => none

/-- `self.license` before backfill: first match among `dcterms:license`,
`cc:license`, `xhtml:license`, in that order. -/
def licenseOf (props : List ResourceProperty) : Option ResourceProperty :=
  match findProperty props dcterms_license with
  | some p => some p
  | none =>
    match findProperty props cc_license with
    | some p => some p
    | none => findProperty props xhtml_license

/-- Python truthiness of `not self.license.content`: true for a missing
value and for the empty string. -/
def contentFalsy : Option String → Bool
  | none => true
  | some s => s == ""

/-- Replace the first property whose URI equals `u` (the in-place mutation
of the aliased list element). -/
def replaceFirst (u : String) (p' : ResourceProperty) :
    List ResourceProperty → List ResourceProperty
  | [] => []
  | p :: rest => if p.uri == u then p' :: rest else p :: replaceFirst u p' rest

/-- `license_labels.get(self.license.resource, None)` (a `None` key is not
in the table). -/
def backfillContent (lic : ResourceProperty) : Option String :=
  match lic.resource with
  | some r => licenseLabelsGet r
  | none => none

/-- The license backfill step: when a license was selected and its content
is falsy, set its content from the license-label table (mutating the shared
element of the property list). Returns the final license and property list. -/
def applyBackfill (props : List ResourceProperty) :
    Option ResourceProperty × List ResourceProperty :=
  match licenseOf props with
  | none => (none, props)
  | some lic =>
    if contentFalsy lic.content then
      let lic' : ResourceProperty := { lic with content := backfillContent lic }
      (some lic', replaceFirst lic.uri lic' props)
    else (some lic, props)

/-- One projected RDF resource (`ResourceProperties`). -/
structure ResourceProperties where
  subject_uri : String
  properties : List ResourceProperty
  sources : List Node
  title : Option ResourceProperty
  attribution : Option ResourceProperty
  license : Option ResourceProperty
deriving DecidableEq

/-- `ResourceProperties.__init__`: project the predicate list, then derive
title, attribution and license, applying the license backfill. -/
def projectRes (v : Vocab) (res : Resource) : ResourceProperties :=
  let built := buildProps v res.predicates
  let final := applyBackfill built.1
  { subject_uri := res.uri, properties := final.2, sources := built.2,
    title := titleOf built.1, attribution := attributionOf built.1,
    license := final.1 }

/-- `ResourceProperties.get_display_properties`. -/
def getDisplayProperties (rp : ResourceProperties) : List ResourceProperty :=
  let properties : List ResourceProperty := []
  let properties :=
    match rp.title with
    | some t => properties ++ [t]
    | none => properties
  let properties :=
    match rp.attribution with
    | some a => properties ++ [a]
    | none =>
      let properties :=
        match findProperty rp.properties cc_attributionURL with
        | some p => properties ++ [p]
        | none => properties
      match findProperty rp.properties cc_attributionName with
      | some p => properties ++ [p]
      | none => properties
  let properties :=
    match rp.license with
    | some l => properties ++ [l]
    | none => properties
  rp.properties.foldl
    (fun acc p =>
      if !(header_properties.contains p.uri) && !(tech_properties.contains p.uri) then
        acc ++ [p]
      else acc)
    properties

/-- `ResourceProperties.get_tech_properties`. -/
def getTechProperties (rp : ResourceProperties) : List ResourceProperty :=
  rp.properties.foldl
    (fun acc p => if tech_properties.contains p.uri then acc ++ [p] else acc)
    []

/-! The Provenance Resolver (`rdf_properties`). -/

/-- First character equals `#` (`str(uri)[0] == "#"`; only evaluated on a
non-empty string in the source, guarded by the short-circuit below). -/
def firstIsHash (u : String) : Bool :=
  match u.data with
  | [] => false
  | c :: _ => c == '#'

/-- The "about this image" test: subject URI empty or starting with `#`
(`res.uri == "" or str(res.uri)[0] == "#"`). -/
def isAbout (u : String) : Bool := u == "" || firstIsHash u

/-- Looking a source node's URI up in its own block's node table; a URI
that carries no statements in the block is a resource with no predicates. -/
def lookupRes (g : List Resource) (u : String) : Resource :=
  match g.find? (fun r => r.uri == u) with
  | some r => r
  | none => { uri := u, predicates := [] }

/-- `s.uri in source_props`: the dedup collection, an insertion-ordered
association list keyed by subject URI. -/
def hasKey (acc : List (String × ResourceProperties)) (u : String) : Bool :=
  acc.any (fun e => e.1 == u)

/-- The `while source_res:` drain of `rdf_properties`, step-indexed by
fuel (`walkBound` below always supplies enough; `walkFuel_stable` proves
the result is fuel-independent from that bound on, i.e. the loop
terminates).  Pops the head source reference; discards it when its URI is
empty, starts with `#`, or is already a key of the dedup collection;
otherwise projects it, records it, and appends its own sources to the
queue. -/
def walkFuel (v : Vocab) (g : List Resource) :
    Nat → List Node → List (String × ResourceProperties) →
    List (String × ResourceProperties)
  | 0, _, acc => acc
  | _ + 1, [], acc => acc
  | fuel + 1, s :: rest, acc =>
    let u := s.uri
    if isAbout u || hasKey acc u then
      walkFuel v g fuel rest acc
    else
      let props := projectRes v (lookupRes g u)
      walkFuel v g fuel (rest ++ props.sources) (acc ++ [(u, props)])

/-- All predicate objects of a block's resources. -/
def blockObjects (g : List Resource) : List Node :=
  (g.map (fun r => r.predicates.map (fun pr => pr.object))).flatten

/-- A fuel budget sufficient for the walk to run to completion (proved by
`walkFuel_stable`): each step either shrinks the queue or visits one of
the finitely many candidate URIs, pushing at most `|blockObjects g|`
new references. -/
def walkBound (g : List Resource) (queue : List Node) : Nat :=
  ((blockObjects g).length + queue.length) * ((blockObjects g).length + 1)
    + queue.length

/-- The source-link walk: the queue drain run with a sufficient budget. -/
def walk (v : Vocab) (g : List Resource) (queue : List Node)
    (acc : List (String × ResourceProperties)) :
    List (String × ResourceProperties) :=
  walkFuel v g (walkBound g queue) queue acc

/-- The per-block work projection: every resource of the block whose
subject is "about this image", projected, in graph iteration order. -/
def blockWorks (v : Vocab) (g : List Resource) : List ResourceProperties :=
  (g.filter (fun r => isAbout r.uri)).map (projectRes v)

/-- The per-block pending queue seed: the sources of the block's work
resources, in discovery order. -/
def blockQueue (v : Vocab) (g : List Resource) : List Node :=
  ((blockWorks v g).map (fun w => w.sources)).flatten

/-- The body of `for rdf in rdfs:`: append the block's work resources and
drain its source queue into the shared dedup collection. -/
def resolveStep (v : Vocab)
    (st : List ResourceProperties × List (String × ResourceProperties))
    (g : List Resource) :
    List ResourceProperties × List (String × ResourceProperties) :=
  (st.1 ++ blockWorks v g, walk v g (blockQueue v g) st.2)

/-- `rdf_properties`: the sentinel pair when the document has no RDF
blocks; otherwise, for each block, project every "about this image"
resource into `work_props`, seed the per-block queue with their sources,
and drain it into the shared dedup collection.  Returns the work list and
the dedup collection's values. -/
def rdfProperties (v : Vocab) (doc : List (List Resource)) :
    Option (List ResourceProperties) × Option (List ResourceProperties) :=
  if doc.isEmpty then (none, none)
  else
    let final := doc.foldl (resolveStep v)
      (([], []) : List ResourceProperties × List (String × ResourceProperties))
    (some final.1, some (final.2.map (fun e => e.2)))

/-! ### Lemmas: the sources recorded by the projector -/

theorem buildProps_sources_cases (v : Vocab) (pred : Predicate) (rest : List Predicate) :
    (buildProps v (pred :: rest)).2 = pred.object :: (buildProps v rest).2 ∨
      (buildProps v (pred :: rest)).2 = (buildProps v rest).2 := by
  cases hobj : pred.object with
  | blank => right; simp [buildProps, hobj]
  | literal val =>
    by_cases hs : source_properties.contains pred.uri.str = true
    · left; simp [buildProps, hobj, hs, List.elem_iff.mp hs]
    · right; simp [buildProps, hobj, hs, List.elem_iff.not.mp hs]
  | resource u =>
    by_cases hs : source_properties.contains pred.uri.str = true
    · left; simp [buildProps, hobj, hs, List.elem_iff.mp hs]
    · right; simp [buildProps, hobj, hs, List.elem_iff.not.mp hs]

theorem buildProps_sources_subset (v : Vocab) (preds : List Predicate) :
    ∀ s ∈ (buildProps v preds).2, s ∈ preds.map (fun pr => pr.object) := by
  induction preds with
  | nil => intro s hs; simp [buildProps] at hs
  | cons pred rest ih =>
    intro s hs
    rcases buildProps_sources_cases v pred rest with h | h <;> rw [h] at hs
    · rcases List.mem_cons.mp hs with h' | h'
      · exact List.mem_cons.mpr (Or.inl (h' ▸ rfl))
      · exact List.mem_cons.mpr (Or.inr (ih s h'))
    · exact List.mem_cons.mpr (Or.inr (ih s hs))

theorem buildProps_sources_length (v : Vocab) (preds : List Predicate) :
    (buildProps v preds).2.length ≤ preds.length := by
  induction preds with
  | nil => simp [buildProps]
  | cons pred rest ih =>
    rcases buildProps_sources_cases v pred rest with h | h <;> rw [h] <;>
      simp only [List.length_cons] <;> omega

theorem projectRes_sources (v : Vocab) (res : Resource) :
    (projectRes v res).sources = (buildProps v res.predicates).2 := rfl

theorem lookupRes_cases (g : List Resource) (u : String) :
    lookupRes g u ∈ g ∨ lookupRes g u = { uri := u, predicates := [] } := by
  unfold lookupRes
  cases h : g.find? (fun r => r.uri == u) with
  | none => exact Or.inr rfl
  | some r => exact Or.inl (List.mem_of_find?_eq_some h)

theorem lookup_sources_subset (v : Vocab) (g : List Resource) (u : String) :
    ∀ s ∈ (projectRes v (lookupRes g u)).sources, s ∈ blockObjects g := by
  intro s hs
  rw [projectRes_sources] at hs
  rcases lookupRes_cases g u with h | h
  · have hmem := buildProps_sources_subset v (lookupRes g u).predicates s hs
    unfold blockObjects
    exact List.mem_flatten.mpr
      ⟨(lookupRes g u).predicates.map (fun pr => pr.object),
        List.mem_map_of_mem _ h, hmem⟩
  · rw [h] at hs
    simp [buildProps] at hs

theorem lookup_sources_length (v : Vocab) (g : List Resource) (u : String) :
    (projectRes v (lookupRes g u)).sources.length ≤ (blockObjects g).length := by
  rw [projectRes_sources]
  rcases lookupRes_cases g u with h | h
  · have h1 := buildProps_sources_length v (lookupRes g u).predicates
    have h2 : ((lookupRes g u).predicates.map (fun pr => pr.object)).length
        ≤ (blockObjects g).length := by
      unfold blockObjects
      rw [List.length_flatten]
      exact List.single_le_sum (fun x _ => Nat.zero_le x) _
        (List.mem_map_of_mem _ (List.mem_map_of_mem _ h))
    rw [List.length_map] at h2
    omega
  · rw [h]
    simp [buildProps]

/-! ### Lemmas: termination of the source walk -/

theorem hasKey_append (acc : List (String × ResourceProperties)) (w : String)
    (P : ResourceProperties) (x : String) :
    hasKey (acc ++ [(w, P)]) x = (hasKey acc x || (w == x)) := by
  simp [hasKey, List.any_append]

theorem walkFuel_nil (v : Vocab) (g : List Resource) (n : Nat)
    (acc : List (String × ResourceProperties)) :
    walkFuel v g n [] acc = acc := by
  cases n <;> rfl

theorem walkFuel_cons (v : Vocab) (g : List Resource) (fuel : Nat) (s : Node)
    (rest : List Node) (acc : List (String × ResourceProperties)) :
    walkFuel v g (fuel + 1) (s :: rest) acc =
      if isAbout s.uri || hasKey acc s.uri then
        walkFuel v g fuel rest acc
      else
        walkFuel v g fuel (rest ++ (projectRes v (lookupRes g s.uri)).sources)
          (acc ++ [(s.uri, projectRes v (lookupRes g s.uri))]) := rfl

/-- The decreasing measure of the walk: number of candidate URIs not yet in
the dedup collection, weighted by the largest possible queue growth of one
projection, plus the queue length. -/
def walkMeasure (g : List Resource) (q : List Node)
    (acc : List (String × ResourceProperties)) : Nat :=
  (((blockObjects g ++ q).map Node.uri).toFinset.filter
      (fun u => hasKey acc u = false)).card * ((blockObjects g).length + 1)
    + q.length

theorem unvisited_card_discard (g : List Resource) (s : Node) (rest : List Node)
    (acc : List (String × ResourceProperties)) :
    (((blockObjects g ++ rest).map Node.uri).toFinset.filter
        (fun u => hasKey acc u = false)).card
      ≤ (((blockObjects g ++ s :: rest).map Node.uri).toFinset.filter
          (fun u => hasKey acc u = false)).card := by
  apply Finset.card_le_card
  intro x hx
  simp only [Finset.mem_filter, List.mem_toFinset, List.mem_map, List.mem_append,
    List.mem_cons] at hx ⊢
  obtain ⟨⟨y, hy, hyx⟩, hk⟩ := hx
  exact ⟨⟨y, by tauto, hyx⟩, hk⟩

theorem unvisited_card_project (g : List Resource) (s : Node) (rest : List Node)
    (acc : List (String × ResourceProperties)) (P : ResourceProperties)
    (srcs : List Node)
    (hkey : hasKey acc s.uri = false)
    (hsub : ∀ x ∈ srcs, x ∈ blockObjects g) :
    (((blockObjects g ++ (rest ++ srcs)).map Node.uri).toFinset.filter
        (fun u => hasKey (acc ++ [(s.uri, P)]) u = false)).card + 1
      ≤ (((blockObjects g ++ s :: rest).map Node.uri).toFinset.filter
          (fun u => hasKey acc u = false)).card := by
  set A := ((blockObjects g ++ s :: rest).map Node.uri).toFinset.filter
    (fun u => hasKey acc u = false) with hA
  set B := ((blockObjects g ++ (rest ++ srcs)).map Node.uri).toFinset.filter
    (fun u => hasKey (acc ++ [(s.uri, P)]) u = false) with hB
  have huA : s.uri ∈ A := by
    rw [hA]
    simp only [Finset.mem_filter, List.mem_toFinset, List.mem_map, List.mem_append,
      List.mem_cons]
    exact ⟨⟨s, Or.inr (Or.inl rfl), rfl⟩, hkey⟩
  have hBsub : B ⊆ A.erase s.uri := by
    intro x hx
    rw [hB] at hx
    simp only [Finset.mem_filter, List.mem_toFinset, List.mem_map, List.mem_append,
      hasKey_append, Bool.or_eq_false_iff, beq_eq_false_iff_ne] at hx
    obtain ⟨⟨y, hy, hyx⟩, hxk, hxne⟩ := hx
    rw [Finset.mem_erase, hA]
    refine ⟨by exact fun h => hxne (h ▸ rfl), ?_⟩
    simp only [Finset.mem_filter, List.mem_toFinset, List.mem_map, List.mem_append,
      List.mem_cons]
    refine ⟨⟨y, ?_, hyx⟩, hxk⟩
    rcases hy with hy | hy | hy
    · exact Or.inl hy
    · exact Or.inr (Or.inr hy)
    · exact Or.inl (hsub y hy)
  have h1 : B.card ≤ (A.erase s.uri).card := Finset.card_le_card hBsub
  have h2 : (A.erase s.uri).card = A.card - 1 := Finset.card_erase_of_mem huA
  have h3 : 1 ≤ A.card := Finset.card_pos.mpr ⟨s.uri, huA⟩
  omega

theorem walkMeasure_discard (g : List Resource) (s : Node) (rest : List Node)
    (acc : List (String × ResourceProperties)) :
    walkMeasure g rest acc + 1 ≤ walkMeasure g (s :: rest) acc := by
  unfold walkMeasure
  have h := unvisited_card_discard g s rest acc
  have hm := Nat.mul_le_mul_right ((blockObjects g).length + 1) h
  simp only [List.length_cons]
  omega

theorem walkMeasure_project (g : List Resource) (s : Node) (rest : List Node)
    (acc : List (String × ResourceProperties)) (P : ResourceProperties)
    (srcs : List Node)
    (hkey : hasKey acc s.uri = false)
    (hsub : ∀ x ∈ srcs, x ∈ blockObjects g)
    (hlen : srcs.length ≤ (blockObjects g).length) :
    walkMeasure g (rest ++ srcs) (acc ++ [(s.uri, P)]) + 1
      ≤ walkMeasure g (s :: rest) acc := by
  unfold walkMeasure
  have h1 := unvisited_card_project g s rest acc P srcs hkey hsub
  have h2 := Nat.mul_le_mul_right ((blockObjects g).length + 1) h1
  rw [Nat.add_mul, Nat.one_mul] at h2
  simp only [List.length_cons, List.length_append]
  omega

theorem walkFuel_stable (v : Vocab) (g : List Resource) :
    ∀ n q acc f, walkMeasure g q acc ≤ n → walkMeasure g q acc ≤ f →
      walkFuel v g n q acc = walkFuel v g f q acc := by
  intro n
  induction n using Nat.strong_induction_on with
  | _ n ih =>
    intro q acc f hn hf
    match q with
    | [] => rw [walkFuel_nil, walkFuel_nil]
    | s :: rest =>
      have hq : 1 ≤ walkMeasure g (s :: rest) acc := by
        have h1 : (s :: rest).length ≤ walkMeasure g (s :: rest) acc :=
          Nat.le_add_left _ _
        simp only [List.length_cons] at h1
        omega
      obtain ⟨n', rfl⟩ : ∃ n', n = n' + 1 := ⟨n - 1, by omega⟩
      obtain ⟨f', rfl⟩ : ∃ f', f = f' + 1 := ⟨f - 1, by omega⟩
      rw [walkFuel_cons, walkFuel_cons]
      by_cases hc : (isAbout s.uri || hasKey acc s.uri) = true
      · rw [if_pos hc, if_pos hc]
        have hd := walkMeasure_discard g s rest acc
        exact ih n' (by omega) rest acc f' (by omega) (by omega)
      · have hc' : ¬ (isAbout s.uri || hasKey acc s.uri) = true := hc
        rw [if_neg hc', if_neg hc']
        have hc2 : (isAbout s.uri || hasKey acc s.uri) = false := by
          simpa using hc
        have hkey : hasKey acc s.uri = false := (Bool.or_eq_false_iff.mp hc2).2
        have hp := walkMeasure_project g s rest acc
          (projectRes v (lookupRes g s.uri))
          ((projectRes v (lookupRes g s.uri)).sources) hkey
          (lookup_sources_subset v g s.uri) (lookup_sources_length v g s.uri)
        exact ih n' (by omega) _ _ f' (by omega) (by omega)

theorem walkMeasure_le_walkBound (g : List Resource) (q : List Node)
    (acc : List (String × ResourceProperties)) :
    walkMeasure g q acc ≤ walkBound g q := by
  unfold walkMeasure walkBound
  have h1 : (((blockObjects g ++ q).map Node.uri).toFinset.filter
      (fun u => hasKey acc u = false)).card
      ≤ (blockObjects g).length + q.length := by
    calc (((blockObjects g ++ q).map Node.uri).toFinset.filter
          (fun u => hasKey acc u = false)).card
        ≤ ((blockObjects g ++ q).map Node.uri).toFinset.card :=
          Finset.card_filter_le _ _
      _ ≤ ((blockObjects g ++ q).map Node.uri).length :=
          List.toFinset_card_le _
      _ = (blockObjects g).length + q.length := by
          simp [List.length_map, List.length_append]
  have h2 := Nat.mul_le_mul_right ((blockObjects g).length + 1) h1
  omega

/-- Any fuel at least `walkBound` computes the same result as `walk`:
the queue drain terminates. -/
theorem walk_fuel_suffices (v : Vocab) (g : List Resource) (q : List Node)
    (acc : List (String × ResourceProperties)) (fuel : Nat)
    (h : walkBound g q ≤ fuel) :
    walkFuel v g fuel q acc = walk v g q acc :=
  walkFuel_stable v g fuel q acc (walkBound g q)
    (le_trans (walkMeasure_le_walkBound g q acc) h)
    (walkMeasure_le_walkBound g q acc)

/-! ### Lemmas: the projected property list -/

theorem buildProps_props_cases (v : Vocab) (pred : Predicate) (rest : List Predicate) :
    (pred.object.isBlank = true ∧
      (buildProps v (pred :: rest)).1 = (buildProps v rest).1) ∨
    (pred.object.isBlank = false ∧
      (buildProps v (pred :: rest)).1 =
        { uri := pred.uri.str, label := some (labelFor v pred.uri),
          content := objContent pred.object, resource := objResource pred.object,
          rel := none } :: (buildProps v rest).1) := by
  cases hobj : pred.object with
  | blank => left; simp [buildProps, hobj, Node.isBlank]
  | literal val =>
    right
    constructor
    · simp [hobj, Node.isBlank]
    · simp [buildProps, hobj, objContent, objResource]
  | resource u =>
    right
    constructor
    · simp [hobj, Node.isBlank]
    · simp [buildProps, hobj, objContent, objResource]

theorem buildProps_mem (v : Vocab) (preds : List Predicate) :
    ∀ p ∈ (buildProps v preds).1, ∃ pr ∈ preds,
      pr.object.isBlank = false ∧ p.uri = pr.uri.str ∧
      p.label = some (labelFor v pr.uri) ∧
      p.content = objContent pr.object ∧ p.resource = objResource pr.object ∧
      p.rel = none := by
  induction preds with
  | nil => intro p hp; simp [buildProps] at hp
  | cons pred rest ih =>
    intro p hp
    rcases buildProps_props_cases v pred rest with ⟨hb, heq⟩ | ⟨hb, heq⟩ <;>
      rw [heq] at hp
    · obtain ⟨pr, hpr, hrest⟩ := ih p hp
      exact ⟨pr, List.mem_cons.mpr (Or.inr hpr), hrest⟩
    · rcases List.mem_cons.mp hp with h | h
      · exact ⟨pred, List.mem_cons.mpr (Or.inl rfl), hb, by rw [h], by rw [h],
          by rw [h], by rw [h], by rw [h]⟩
      · obtain ⟨pr, hpr, hrest⟩ := ih p h
        exact ⟨pr, List.mem_cons.mpr (Or.inr hpr), hrest⟩

theorem buildProps_props_length (v : Vocab) (preds : List Predicate) :
    (buildProps v preds).1.length
      = (preds.filter (fun pr => !pr.object.isBlank)).length := by
  induction preds with
  | nil => simp [buildProps]
  | cons pred rest ih =>
    rcases buildProps_props_cases v pred rest with ⟨hb, heq⟩ | ⟨hb, heq⟩ <;>
      rw [heq] <;> simp [List.filter_cons, hb, ih]

theorem replaceFirst_mem (u : String) (p' : ResourceProperty) :
    ∀ l p, p ∈ replaceFirst u p' l → p ∈ l ∨ p = p' := by
  intro l
  induction l with
  | nil => intro p hp; simp [replaceFirst] at hp
  | cons q rest ih =>
    intro p hp
    simp only [replaceFirst] at hp
    by_cases hq : (q.uri == u) = true
    · rw [if_pos hq] at hp
      rcases List.mem_cons.mp hp with h | h
      · exact Or.inr h
      · exact Or.inl (List.mem_cons.mpr (Or.inr h))
    · rw [if_neg hq] at hp
      rcases List.mem_cons.mp hp with h | h
      · exact Or.inl (List.mem_cons.mpr (Or.inl h))
      · rcases ih p h with h' | h'
        · exact Or.inl (List.mem_cons.mpr (Or.inr h'))
        · exact Or.inr h'

theorem replaceFirst_length (u : String) (p' : ResourceProperty) (l : List ResourceProperty) :
    (replaceFirst u p' l).length = l.length := by
  induction l with
  | nil => rfl
  | cons q rest ih =>
    by_cases hq : (q.uri == u) = true <;> simp [replaceFirst, hq, ih]

theorem replaceFirst_map_uri (u : String) (p' : ResourceProperty)
    (l : List ResourceProperty) (h : p'.uri = u) :
    (replaceFirst u p' l).map (fun p => p.uri) = l.map (fun p => p.uri) := by
  induction l with
  | nil => rfl
  | cons q rest ih =>
    by_cases hq : (q.uri == u) = true
    · simp only [replaceFirst, if_pos hq, List.map_cons]
      rw [h, eq_of_beq hq]
    · simp only [replaceFirst, if_neg hq, List.map_cons, ih]

theorem findProperty_replaceFirst_ne (u : String) (p' : ResourceProperty)
    (l : List ResourceProperty) (u' : String) (hp : p'.uri = u) (hne : u' ≠ u) :
    findProperty (replaceFirst u p' l) u' = findProperty l u' := by
  induction l with
  | nil => rfl
  | cons q rest ih =>
    by_cases hq : (q.uri == u) = true
    · have hqu : q.uri = u := eq_of_beq hq
      have h1 : (u' == p'.uri) = false := by
        rw [hp]; exact beq_eq_false_iff_ne.mpr hne
      have h2 : (u' == q.uri) = false := by
        rw [hqu]; exact beq_eq_false_iff_ne.mpr hne
      simp only [replaceFirst, if_pos hq, findProperty, List.find?_cons, h1, h2]
    · simp only [replaceFirst, if_neg hq, findProperty, List.find?_cons]
      cases hcond : (u' == q.uri)
      · exact ih
      · rfl

theorem findProperty_some (props : List ResourceProperty) (u : String)
    (p : ResourceProperty) (h : findProperty props u = some p) :
    p ∈ props ∧ p.uri = u := by
  unfold findProperty at h
  have hb := List.find?_some h
  simp only [beq_iff_eq] at hb
  exact ⟨List.mem_of_find?_eq_some h, hb.symm⟩

theorem findProperty_isSome_iff (props : List ResourceProperty) (u : String) :
    (findProperty props u).isSome = true ↔ u ∈ props.map (fun p => p.uri) := by
  unfold findProperty
  rw [List.find?_isSome]
  constructor
  · rintro ⟨p, hp, hbeq⟩
    exact List.mem_map.mpr ⟨p, hp, (eq_of_beq hbeq).symm⟩
  · intro h
    obtain ⟨p, hp, hu⟩ := List.mem_map.mp h
    exact ⟨p, hp, beq_iff_eq.mpr hu.symm⟩

theorem findProperty_eq_none_iff (props : List ResourceProperty) (u : String) :
    findProperty props u = none ↔ u ∉ props.map (fun p => p.uri) := by
  rw [← findProperty_isSome_iff]
  cases h : findProperty props u <;> simp

theorem licenseOf_some (props : List ResourceProperty) (lic : ResourceProperty)
    (h : licenseOf props = some lic) :
    lic ∈ props ∧
      (lic.uri = dcterms_license ∨ lic.uri = cc_license ∨ lic.uri = xhtml_license) := by
  unfold licenseOf at h
  cases h1 : findProperty props dcterms_license with
  | some p =>
    rw [h1] at h
    obtain ⟨hm, hu⟩ := findProperty_some props dcterms_license p h1
    cases h; exact ⟨hm, Or.inl hu⟩
  | none =>
    rw [h1] at h
    cases h2 : findProperty props cc_license with
    | some p =>
      rw [h2] at h
      obtain ⟨hm, hu⟩ := findProperty_some props cc_license p h2
      cases h; exact ⟨hm, Or.inr (Or.inl hu)⟩
    | none =>
      rw [h2] at h
      obtain ⟨hm, hu⟩ := findProperty_some props xhtml_license lic h
      exact ⟨hm, Or.inr (Or.inr hu)⟩

theorem applyBackfill_cases (props : List ResourceProperty) :
    ((applyBackfill props).1 = licenseOf props ∧ (applyBackfill props).2 = props) ∨
    (∃ lic, licenseOf props = some lic ∧ contentFalsy lic.content = true ∧
      (applyBackfill props).1 = some { lic with content := backfillContent lic } ∧
      (applyBackfill props).2 =
        replaceFirst lic.uri { lic with content := backfillContent lic } props) := by
  unfold applyBackfill
  cases hlic : licenseOf props with
  | none => left; simp
  | some lic =>
    by_cases hcf : contentFalsy lic.content = true
    · right; exact ⟨lic, rfl, hcf, by simp [hcf], by simp [hcf]⟩
    · left; simp [hcf]

theorem projectRes_properties (v : Vocab) (res : Resource) :
    (projectRes v res).properties = (applyBackfill (buildProps v res.predicates).1).2 := rfl

theorem projectRes_license (v : Vocab) (res : Resource) :
    (projectRes v res).license = (applyBackfill (buildProps v res.predicates).1).1 := rfl

theorem projectRes_attribution (v : Vocab) (res : Resource) :
    (projectRes v res).attribution = attributionOf (buildProps v res.predicates).1 := rfl

theorem projectRes_mem (v : Vocab) (res : Resource) (p : ResourceProperty)
    (hp : p ∈ (projectRes v res).properties) :
    ∃ pr ∈ res.predicates, pr.object.isBlank = false ∧ p.uri = pr.uri.str ∧
      p.label = some (labelFor v pr.uri) ∧
      ((p.content = objContent pr.object ∧ p.resource = objResource pr.object) ∨
        (projectRes v res).license = some p) := by
  rw [projectRes_properties] at hp
  rcases applyBackfill_cases (buildProps v res.predicates).1 with
    ⟨h1, h2⟩ | ⟨lic, hlic, hcf, h1, h2⟩
  · rw [h2] at hp
    obtain ⟨pr, hpr, hblank, huri, hlabel, hcontent, hres, _⟩ :=
      buildProps_mem v res.predicates p hp
    exact ⟨pr, hpr, hblank, huri, hlabel, Or.inl ⟨hcontent, hres⟩⟩
  · rw [h2] at hp
    rcases replaceFirst_mem _ _ _ p hp with h | h
    · obtain ⟨pr, hpr, hblank, huri, hlabel, hcontent, hres, _⟩ :=
        buildProps_mem v res.predicates p h
      exact ⟨pr, hpr, hblank, huri, hlabel, Or.inl ⟨hcontent, hres⟩⟩
    · obtain ⟨pr, hpr, hblank, huri, hlabel, _, _, _⟩ :=
        buildProps_mem v res.predicates lic (licenseOf_some _ lic hlic).1
      refine ⟨pr, hpr, hblank, by rw [h]; exact huri, by rw [h]; exact hlabel,
        Or.inr ?_⟩
      rw [projectRes_license, h1, h]

theorem applyBackfill_map_uri (props : List ResourceProperty) :
    (applyBackfill props).2.map (fun p => p.uri) = props.map (fun p => p.uri) := by
  rcases applyBackfill_cases props with ⟨_, h2⟩ | ⟨lic, _, _, _, h2⟩
  · rw [h2]
  · rw [h2]; exact replaceFirst_map_uri _ _ _ rfl

theorem findProperty_applyBackfill (props : List ResourceProperty) (u' : String)
    (h1 : u' ≠ dcterms_license) (h2 : u' ≠ cc_license) (h3 : u' ≠ xhtml_license) :
    findProperty (applyBackfill props).2 u' = findProperty props u' := by
  rcases applyBackfill_cases props with ⟨_, hp⟩ | ⟨lic, hlic, _, _, hp⟩
  · rw [hp]
  · rw [hp]
    refine findProperty_replaceFirst_ne lic.uri _ props u' rfl ?_
    rcases (licenseOf_some props lic hlic).2 with h | h | h <;> rw [h] <;> assumption

theorem projectRes_license_uri (v : Vocab) (res : Resource) :
    ((projectRes v res).license).map (fun p => p.uri)
      = (licenseOf (buildProps v res.predicates).1).map (fun p => p.uri) := by
  rw [projectRes_license]
  rcases applyBackfill_cases (buildProps v res.predicates).1 with
    ⟨h1, _⟩ | ⟨lic, hlic, _, h1, _⟩
  · rw [h1]
  · rw [h1, hlic]; rfl

/-! ### Lemmas: the resolver fold and the display/tech loops -/

theorem walk_nil (v : Vocab) (g : List Resource)
    (acc : List (String × ResourceProperties)) : walk v g [] acc = acc := by
  unfold walk
  exact walkFuel_nil v g _ acc

theorem foldl_resolveStep_works (v : Vocab) :
    ∀ (doc : List (List Resource))
      (st : List ResourceProperties × List (String × ResourceProperties)),
      (doc.foldl (resolveStep v) st).1
        = st.1 ++ (doc.map (fun g => blockWorks v g)).flatten := by
  intro doc
  induction doc with
  | nil => intro st; simp
  | cons g rest ih =>
    intro st
    simp [List.foldl_cons, resolveStep, ih, List.append_assoc]

theorem foldl_resolveStep_empty (v : Vocab) :
    ∀ (doc : List (List Resource))
      (st : List ResourceProperties × List (String × ResourceProperties)),
      (st.1 = [] → st.2 = []) →
      (doc.foldl (resolveStep v) st).1 = [] →
      (doc.foldl (resolveStep v) st).2 = [] := by
  intro doc
  induction doc with
  | nil => intro st h; exact h
  | cons g rest ih =>
    intro st h
    apply ih
    intro h1
    have h2 : st.1 = [] ∧ blockWorks v g = [] := by
      simpa [resolveStep] using h1
    have hq : blockQueue v g = [] := by
      simp [blockQueue, h2.2]
    show walk v g (blockQueue v g) st.2 = []
    rw [hq, walk_nil]
    exact h h2.1

theorem foldl_append_filter {α : Type} (f : α → Bool) :
    ∀ (l : List α) (acc : List α),
      l.foldl (fun a x => if f x then a ++ [x] else a) acc = acc ++ l.filter f := by
  intro l
  induction l with
  | nil => intro acc; simp
  | cons x rest ih =>
    intro acc
    by_cases hf : f x = true <;> simp [List.filter_cons, hf, ih]

theorem getTech_spec (rp : ResourceProperties) :
    getTechProperties rp
      = rp.properties.filter (fun p => tech_properties.contains p.uri) := by
  unfold getTechProperties
  rw [foldl_append_filter]
  simp

theorem getDisplay_spec (rp : ResourceProperties) :
    getDisplayProperties rp =
      (rp.title.toList
        ++ (match rp.attribution with
            | some a => [a]
            | none =>
              (findProperty rp.properties cc_attributionURL).toList
                ++ (findProperty rp.properties cc_attributionName).toList)
        ++ rp.license.toList)
        ++ rp.properties.filter
            (fun p =>
              !(header_properties.contains p.uri)
                && !(tech_properties.contains p.uri)) := by
  unfold getDisplayProperties
  rw [foldl_append_filter]
  congr 1
  cases rp.attribution with
  | some a => cases rp.title <;> cases rp.license <;> simp
  | none =>
    cases rp.title <;> cases rp.license <;>
      cases findProperty rp.properties cc_attributionURL <;>
      cases findProperty rp.properties cc_attributionName <;> simp

/-! ### Concrete scenario inputs -/

/-- A vocabulary in which every term lookup misses. -/
def vocab0 : Vocab := fun _ _ => none

def dcSourceTerm : TermUri := { ns_uri := dcNs, local_name := "source" }

def dctermsLicenseTerm : TermUri := { ns_uri := dctermsNs, local_name := "license" }

def exUriX : String := "http://example.org/X"

/-- Block A of the two-block cycle scenario: the work resource (subject
`""`) whose `dc:source` points at X; X carries no statements in this
block (its statements live in block B). -/
def blockA : List Resource :=
  [{ uri := "", predicates := [{ uri := dcSourceTerm, object := .resource exUriX }] },
   { uri := exUriX, predicates := [] }]

/-- Block B of the two-block cycle scenario: X's `dc:source` points back
at block A's work resource. -/
def blockB : List Resource :=
  [{ uri := exUriX, predicates := [{ uri := dcSourceTerm, object := .resource "" }] }]

/-- The two-block cyclic document of the spec's termination scenario. -/
def cyclicDoc : List (List Resource) := [blockA, blockB]

/-- A single-block cycle: the work resource points at X and X points back;
here the back-edge actually enters the queue and is discarded by the
empty-URI guard. -/
def cycBlock : List Resource :=
  [{ uri := "", predicates := [{ uri := dcSourceTerm, object := .resource exUriX }] },
   { uri := exUriX, predicates := [{ uri := dcSourceTerm, object := .resource "" }] }]

/-- A resource with both attribution constituents. -/
def janeRes : Resource :=
  { uri := "", predicates :=
    [{ uri := { ns_uri := ccNs, local_name := "attributionURL" },
       object := .resource "http://example.org/x" },
     { uri := { ns_uri := ccNs, local_name := "attributionName" },
       object := .literal "Jane" }] }

/-- A resource with only `cc:attributionName`. -/
def loneRes : Resource :=
  { uri := "", predicates :=
    [{ uri := { ns_uri := ccNs, local_name := "attributionName" },
       object := .literal "Jane" }] }

/-- The projected raw `cc:attributionURL` property of `janeRes`. -/
def janeUrlProp : ResourceProperty :=
  { uri := cc_attributionURL, label := some cc_attributionURL,
    content := none, resource := some "http://example.org/x", rel := none }

/-- The projected raw `cc:attributionName` property of `janeRes`/`loneRes`. -/
def janeNameProp : ResourceProperty :=
  { uri := cc_attributionName, label := some cc_attributionName,
    content := some "Jane", resource := none, rel := none }

/-- A resource whose only license predicate is `dcterms:license` pointing
at the CC BY-SA 3.0 URI, with no literal content. -/
def cexRes : Resource :=
  { uri := "", predicates :=
    [{ uri := dctermsLicenseTerm,
       object := .resource "http://creativecommons.org/licenses/by-sa/3.0/" }] }

/-- The backfilled license property of `cexRes`: both content and resource
are set on the finished object. -/
def cexLicenseProp : ResourceProperty :=
  { uri := dcterms_license, label := some dcterms_license,
    content := some "CC BY-SA 3.0",
    resource := some "http://creativecommons.org/licenses/by-sa/3.0/", rel := none }

/-- A resource carrying `cc:license` before `dcterms:license` in graph
order; priority must still select `dcterms:license`. -/
def prioRes : Resource :=
  { uri := "", predicates :=
    [{ uri := { ns_uri := ccNs, local_name := "license" },
       object := .resource "http://example.org/licB" },
     { uri := dctermsLicenseTerm, object := .resource "http://example.org/licA" }] }

/-- A block whose work resource lists its sources in the opposite of the
order in which the source resources appear in the document. -/
def orderBlock : List Resource :=
  [{ uri := "http://example.org/a", predicates := [] },
   { uri := "http://example.org/b", predicates := [] },
   { uri := "", predicates :=
     [{ uri := dcSourceTerm, object := .resource "http://example.org/b" },
      { uri := dcSourceTerm, object := .resource "http://example.org/a" }] }]

/-! ### Claim theorems -/

/-- C1: the transitive source-link walk terminates for every document:
any fuel at least `walkBound` computes the fixed point `walk` reaches, so
the queue drain cannot run forever, cycles included.  In the two-block
cycle scenario (block A's work resource points via `dc:source` at X in
block B, and X points back), the source collection holds exactly one
entry, keyed by X's URI, and none for the cyclic back-edge; the same holds
when the cycle sits inside a single block, where the back-edge reference
is discarded by the guard before projection. -/
theorem claim_C1_walk_terminates :
    (∀ (v : Vocab) (g : List Resource) (q : List Node)
        (acc : List (String × ResourceProperties)) (fuel : Nat),
        walkBound g q ≤ fuel → walkFuel v g fuel q acc = walk v g q acc)
    ∧ (rdfProperties vocab0 cyclicDoc).2.map
        (fun l => l.map (fun r => r.subject_uri)) = some [exUriX]
    ∧ (rdfProperties vocab0 [cycBlock]).2.map
        (fun l => l.map (fun r => r.subject_uri)) = some [exUriX] :=
  ⟨fun v g q acc fuel h => walk_fuel_suffices v g q acc fuel h, by decide, by decide⟩

/-- Witness for C1: a concrete fuel above the bound of the cyclic
scenario's block-A queue runs the walk to the same result. -/
theorem claim_C1_witness :
    walkBound blockA (blockQueue vocab0 blockA) ≤ 50 ∧
      walkFuel vocab0 blockA 50 (blockQueue vocab0 blockA) []
        = walk vocab0 blockA (blockQueue vocab0 blockA) [] :=
  ⟨by decide,
   claim_C1_walk_terminates.1 vocab0 blockA (blockQueue vocab0 blockA) [] 50 (by decide)⟩

/-- C5: `rdf_properties` returns the `(None, None)` sentinel iff the
document contains no RDF blocks; with at least one block it returns a
work list and a source list (each possibly empty), never the sentinel. -/
theorem claim_C5_sentinel_iff_no_blocks :
    (∀ (v : Vocab) (doc : List (List Resource)),
        rdfProperties v doc = (none, none) ↔ doc = [])
    ∧ (∀ (v : Vocab) (doc : List (List Resource)), doc ≠ [] →
        ∃ w s, rdfProperties v doc = (some w, some s)) := by
  constructor
  · intro v doc
    cases doc with
    | nil => simp [rdfProperties]
    | cons g rest => simp [rdfProperties]
  · intro v doc h
    cases doc with
    | nil => exact absurd rfl h
    | cons g rest => exact ⟨_, _, rfl⟩

/-- Witness for C5: a one-block document is not mapped to the sentinel. -/
theorem claim_C5_witness :
    ∃ w s, rdfProperties vocab0 [blockA] = (some w, some s) :=
  claim_C5_sentinel_iff_no_blocks.2 vocab0 [blockA] (by decide)

/-- C10: if the returned source collection is non-empty then the work
list is non-empty too — the walk queues are seeded only from the sources
of "about this image" resources — so the caller's `work_props[0]` access
is safe whenever any result was found. -/
theorem claim_C10_sources_imply_works :
    ∀ (v : Vocab) (doc : List (List Resource)) (w s : List ResourceProperties),
      rdfProperties v doc = (some w, some s) → s ≠ [] → w ≠ [] := by
  intro v doc w s h hs hw
  cases doc with
  | nil => simp [rdfProperties] at h
  | cons g rest =>
    have h' : (some (((g :: rest).foldl (resolveStep v) ([], [])).1),
        some ((((g :: rest).foldl (resolveStep v) ([], [])).2).map (fun e => e.2)))
        = ((some w : Option (List ResourceProperties)), (some s : Option (List ResourceProperties))) := h
    obtain ⟨h1, h2⟩ := Prod.mk.injEq .. ▸ h'
    have hw1 : ((g :: rest).foldl (resolveStep v) ([], [])).1 = [] := by
      rw [Option.some_inj.mp h1, hw]
    have hs1 := foldl_resolveStep_empty v (g :: rest) ([], []) (fun _ => rfl) hw1
    apply hs
    rw [← Option.some_inj.mp h2, hs1]
    rfl

/-- Witness for C10: in the cyclic scenario the source collection is
non-empty, so the work list is provably non-empty. -/
theorem claim_C10_witness :
    (cyclicDoc.foldl (resolveStep vocab0) ([], [])).1 ≠ [] :=
  claim_C10_sources_imply_works vocab0 cyclicDoc
    ((cyclicDoc.foldl (resolveStep vocab0) ([], [])).1)
    (((cyclicDoc.foldl (resolveStep vocab0) ([], [])).2).map (fun e => e.2))
    (by rfl) (by decide)

/-- C2 counterexample: the claim's mutual exclusion fails on the finished
object — after the license backfill, the `dcterms:license` property of
`cexRes` carries both a content (the backfilled label) and a resource. -/
theorem claim_C2_counterexample :
    ((projectRes vocab0 cexRes).properties.any
      (fun p => p.content.isSome && p.resource.isSome)) = true ∧
    (projectRes vocab0 cexRes).properties = [cexLicenseProp] := by
  constructor <;> decide

/-- C2 (amended): every property in the finished list has at most one of
content and resource set, except possibly the selected license property
after the backfill step (which may gain a content while keeping its
resource); at edge-projection time content is set exactly when the object
is a literal node and resource exactly when it is a resource node. -/
theorem claim_C2_amended :
    (∀ (v : Vocab) (res : Resource) (p : ResourceProperty),
        p ∈ (projectRes v res).properties →
        (p.content = none ∨ p.resource = none) ∨ (projectRes v res).license = some p)
    ∧ (∀ (v : Vocab) (preds : List Predicate) (p : ResourceProperty),
        p ∈ (buildProps v preds).1 →
        ∃ pr ∈ preds,
          p.content = objContent pr.object ∧ p.resource = objResource pr.object) := by
  constructor
  · intro v res p hp
    obtain ⟨pr, _, hblank, _, _, hcr⟩ := projectRes_mem v res p hp
    rcases hcr with ⟨hc, hr⟩ | hlic
    · left
      cases hobj : pr.object with
      | blank => rw [hobj] at hblank; simp [Node.isBlank] at hblank
      | literal val => right; rw [hr, hobj]; rfl
      | resource u => left; rw [hc, hobj]; rfl
    · right; exact hlic
  · intro v preds p hp
    obtain ⟨pr, hpr, _, _, _, hc, hr, _⟩ := buildProps_mem v preds p hp
    exact ⟨pr, hpr, hc, hr⟩

/-- Witness for C2 (amended) at the backfilled license property of
`cexRes`: the exceptional disjunct holds there. -/
theorem claim_C2_witness :
    (cexLicenseProp.content = none ∨ cexLicenseProp.resource = none) ∨
      (projectRes vocab0 cexRes).license = some cexLicenseProp :=
  claim_C2_amended.1 vocab0 cexRes cexLicenseProp (by decide)

/-- C3: attribution is synthesized iff both `cc:attributionURL` and
`cc:attributionName` are present among the projected properties; the
synthesized record carries the name's content, the URL's resource and
`rel` = the attributionURL predicate URI (concretely: content `"Jane"`,
resource `http://example.org/x`); with only one constituent present no
attribution is synthesized and the lone raw property is surfaced by
`get_display_properties`. -/
theorem claim_C3_attribution :
    (∀ (v : Vocab) (res : Resource),
        (projectRes v res).attribution.isSome = true ↔
          ((findProperty (projectRes v res).properties cc_attributionURL).isSome = true ∧
            (findProperty (projectRes v res).properties cc_attributionName).isSome = true))
    ∧ (∀ (v : Vocab) (res : Resource) (url name : ResourceProperty),
        findProperty (projectRes v res).properties cc_attributionURL = some url →
        findProperty (projectRes v res).properties cc_attributionName = some name →
        (projectRes v res).attribution =
          some { uri := cc_attributionName, label := some "Attribution",
                 content := name.content, resource := url.resource,
                 rel := some cc_attributionURL })
    ∧ (projectRes vocab0 janeRes).attribution =
        some { uri := cc_attributionName, label := some "Attribution",
               content := some "Jane", resource := some "http://example.org/x",
               rel := some cc_attributionURL }
    ∧ (projectRes vocab0 loneRes).attribution = none
    ∧ getDisplayProperties (projectRes vocab0 loneRes) = [janeNameProp] := by
  have hfind : ∀ (v : Vocab) (res : Resource) (u : String),
      u = cc_attributionURL ∨ u = cc_attributionName →
      findProperty (projectRes v res).properties u
        = findProperty (buildProps v res.predicates).1 u := by
    intro v res u hu
    rw [projectRes_properties]
    rcases hu with h | h <;> rw [h] <;>
      exact findProperty_applyBackfill _ _ (by decide) (by decide) (by decide)
  refine ⟨?_, ?_, by decide, by decide, by decide⟩
  · intro v res
    rw [projectRes_attribution, hfind v res _ (Or.inl rfl), hfind v res _ (Or.inr rfl)]
    unfold attributionOf
    cases findProperty (buildProps v res.predicates).1 cc_attributionURL <;>
      cases findProperty (buildProps v res.predicates).1 cc_attributionName <;> simp
  · intro v res url name h1 h2
    rw [hfind v res _ (Or.inl rfl)] at h1
    rw [hfind v res _ (Or.inr rfl)] at h2
    rw [projectRes_attribution]
    unfold attributionOf
    rw [h1, h2]

/-- Witness for C3 at `janeRes`: both constituents found, the synthesized
record assembled from them. -/
theorem claim_C3_witness :
    (projectRes vocab0 janeRes).attribution =
      some { uri := cc_attributionName, label := some "Attribution",
             content := janeNameProp.content, resource := janeUrlProp.resource,
             rel := some cc_attributionURL } :=
  claim_C3_attribution.2.1 vocab0 janeRes janeUrlProp janeNameProp
    (by decide) (by decide)

/-- C4: the license is selected with priority `dcterms:license`, then
`cc:license`, then `xhtml:license` — a resource carrying both
`dcterms:license` and `cc:license` (even with `cc:license` earlier in
graph order) selects the `dcterms:license` value — and a selected license
with no literal content has its content backfilled from the static table,
concretely `"CC BY-SA 3.0"` for the by-sa/3.0 URI. -/
theorem claim_C4_license_priority_and_backfill :
    (∀ (v : Vocab) (res : Resource),
        (findProperty (projectRes v res).properties dcterms_license).isSome = true →
        ((projectRes v res).license).map (fun p => p.uri) = some dcterms_license)
    ∧ (∀ (v : Vocab) (res : Resource),
        findProperty (projectRes v res).properties dcterms_license = none →
        (findProperty (projectRes v res).properties cc_license).isSome = true →
        ((projectRes v res).license).map (fun p => p.uri) = some cc_license)
    ∧ (∀ (v : Vocab) (res : Resource),
        findProperty (projectRes v res).properties dcterms_license = none →
        findProperty (projectRes v res).properties cc_license = none →
        (findProperty (projectRes v res).properties xhtml_license).isSome = true →
        ((projectRes v res).license).map (fun p => p.uri) = some xhtml_license)
    ∧ ((projectRes vocab0 prioRes).license.map (fun p => (p.uri, p.resource))
        = some (dcterms_license, some "http://example.org/licA"))
    ∧ ((projectRes vocab0 cexRes).license.map (fun p => p.content)
        = some (some "CC BY-SA 3.0")) := by
  have hsome : ∀ (v : Vocab) (res : Resource) (u : String),
      (findProperty (projectRes v res).properties u).isSome = true →
      (findProperty (buildProps v res.predicates).1 u).isSome = true := by
    intro v res u h
    rw [projectRes_properties, findProperty_isSome_iff, applyBackfill_map_uri,
      ← findProperty_isSome_iff] at h
    exact h
  have hnone : ∀ (v : Vocab) (res : Resource) (u : String),
      findProperty (projectRes v res).properties u = none →
      findProperty (buildProps v res.predicates).1 u = none := by
    intro v res u h
    rw [projectRes_properties, findProperty_eq_none_iff, applyBackfill_map_uri,
      ← findProperty_eq_none_iff] at h
    exact h
  refine ⟨?_, ?_, ?_, by decide, by decide⟩
  · intro v res h
    obtain ⟨p, hp⟩ := Option.isSome_iff_exists.mp (hsome v res _ h)
    rw [projectRes_license_uri]
    unfold licenseOf
    rw [hp]
    simp [(findProperty_some _ _ _ hp).2]
  · intro v res h0 h1
    obtain ⟨p, hp⟩ := Option.isSome_iff_exists.mp (hsome v res _ h1)
    rw [projectRes_license_uri]
    unfold licenseOf
    rw [hnone v res _ h0, hp]
    simp [(findProperty_some _ _ _ hp).2]
  · intro v res h0 h1 h2
    obtain ⟨p, hp⟩ := Option.isSome_iff_exists.mp (hsome v res _ h2)
    rw [projectRes_license_uri]
    unfold licenseOf
    rw [hnone v res _ h0, hnone v res _ h1, hp]
    simp [(findProperty_some _ _ _ hp).2]

/-- Witness for C4 at `cexRes`: a present `dcterms:license` is the
selected license. -/
theorem claim_C4_witness :
    ((projectRes vocab0 cexRes).license).map (fun p => p.uri) = some dcterms_license :=
  claim_C4_license_priority_and_backfill.1 vocab0 cexRes (by decide)

/-- C6: predicate edges with blank-node objects are excluded entirely from
the projection — the finished property list has exactly one entry per
non-blank edge, and every entry originates from a non-blank edge. -/
theorem claim_C6_blank_nodes_excluded :
    (∀ (v : Vocab) (res : Resource),
        (projectRes v res).properties.length
          = (res.predicates.filter (fun pr => !pr.object.isBlank)).length)
    ∧ (∀ (v : Vocab) (res : Resource) (p : ResourceProperty),
        p ∈ (projectRes v res).properties →
        ∃ pr ∈ res.predicates, pr.object.isBlank = false ∧ p.uri = pr.uri.str) := by
  constructor
  · intro v res
    rw [projectRes_properties]
    have hlen : (applyBackfill (buildProps v res.predicates).1).2.length
        = (buildProps v res.predicates).1.length := by
      rcases applyBackfill_cases (buildProps v res.predicates).1 with
        ⟨_, h2⟩ | ⟨lic, _, _, _, h2⟩ <;> rw [h2]
      exact replaceFirst_length _ _ _
    rw [hlen, buildProps_props_length]
  · intro v res p hp
    obtain ⟨pr, hpr, hblank, huri, _, _⟩ := projectRes_mem v res p hp
    exact ⟨pr, hpr, hblank, huri⟩

/-- Witness for C6 at `loneRes`: the lone projected property originates
from the (non-blank) attributionName edge. -/
theorem claim_C6_witness :
    ∃ pr ∈ loneRes.predicates,
      pr.object.isBlank = false ∧ janeNameProp.uri = pr.uri.str :=
  claim_C6_blank_nodes_excluded.2 vocab0 loneRes janeNameProp (by decide)

/-- C7: the returned work list preserves block-then-intra-block discovery
order (blocks in document order, within a block the graph iteration order
of its "about this image" resources), while the source collection follows
breadth-first discovery order of the walk, not input-document order: in
`orderBlock`, where the document lists resource a before resource b but
the work resource's sources name b before a, the source collection comes
out as [b, a]. -/
theorem claim_C7_ordering :
    (∀ (v : Vocab) (doc : List (List Resource)), doc ≠ [] →
        (rdfProperties v doc).1
          = some ((doc.map (fun g => blockWorks v g)).flatten))
    ∧ ((rdfProperties vocab0 [orderBlock]).2.map
        (fun l => l.map (fun r => r.subject_uri))
        = some ["http://example.org/b", "http://example.org/a"])
    ∧ ((rdfProperties vocab0 [orderBlock]).2.map
        (fun l => l.map (fun r => r.subject_uri))
        ≠ some ["http://example.org/a", "http://example.org/b"]) := by
  refine ⟨?_, by decide, by decide⟩
  intro v doc h
  cases doc with
  | nil => exact absurd rfl h
  | cons g rest =>
    have h1 : (rdfProperties v (g :: rest)).1
        = some (((g :: rest).foldl (resolveStep v) ([], [])).1) := rfl
    rw [h1, foldl_resolveStep_works]
    simp

/-- Witness for C7: the work component of the `orderBlock` document is the
per-block concatenation of projected work resources. -/
theorem claim_C7_witness :
    (rdfProperties vocab0 [orderBlock]).1
      = some (([orderBlock].map (fun g => blockWorks vocab0 g)).flatten) :=
  claim_C7_ordering.1 vocab0 [orderBlock] (by decide)

/-- C8: `get_display_properties` returns exactly the title (if any), then
the synthesized attribution or in its absence whichever raw attribution
constituents exist, then the license (if any), then every remaining
property classified as neither header nor technical, in original graph
order; `get_tech_properties` returns exactly the technical-classified
subset in original graph order. -/
theorem claim_C8_display_and_tech :
    ∀ (rp : ResourceProperties),
      getDisplayProperties rp =
        (rp.title.toList
          ++ (match rp.attribution with
              | some a => [a]
              | none =>
                (findProperty rp.properties cc_attributionURL).toList
                  ++ (findProperty rp.properties cc_attributionName).toList)
          ++ rp.license.toList)
          ++ rp.properties.filter
              (fun p =>
                !(header_properties.contains p.uri)
                  && !(tech_properties.contains p.uri))
      ∧ getTechProperties rp
          = rp.properties.filter (fun p => tech_properties.contains p.uri) :=
  fun rp => ⟨getDisplay_spec rp, getTech_spec rp⟩

/-- C9: the projection never fails on a vocabulary miss — every projected
property's label is the resolved term label when the lookup keyed by
(namespace URI, local name) succeeds, and the raw predicate URI string
when it fails. -/
theorem claim_C9_label_fallback :
    ∀ (v : Vocab) (res : Resource) (p : ResourceProperty),
      p ∈ (projectRes v res).properties →
      ∃ pr ∈ res.predicates,
        p.label = some (labelFor v pr.uri) ∧
        (v pr.uri.ns_uri pr.uri.local_name = none → p.label = some pr.uri.str) ∧
        (∀ t, v pr.uri.ns_uri pr.uri.local_name = some t → p.label = some t) := by
  intro v res p hp
  obtain ⟨pr, hpr, _, _, hlabel, _⟩ := projectRes_mem v res p hp
  refine ⟨pr, hpr, hlabel, ?_, ?_⟩
  · intro hnone; rw [hlabel]; simp [labelFor, hnone]
  · intro t ht; rw [hlabel]; simp [labelFor, ht]

/-- Witness for C9 at `loneRes` under the empty vocabulary: the label of
the projected property falls back to the raw predicate URI string. -/
theorem claim_C9_witness :
    ∃ pr ∈ loneRes.predicates,
      janeNameProp.label = some (labelFor vocab0 pr.uri) ∧
      (vocab0 pr.uri.ns_uri pr.uri.local_name = none →
        janeNameProp.label = some pr.uri.str) ∧
      (∀ t, vocab0 pr.uri.ns_uri pr.uri.local_name = some t →
        janeNameProp.label = some t) :=
  claim_C9_label_fallback vocab0 loneRes janeNameProp (by decide)

end MgRdfa
